import Mathlib

/-
  Verification development for the spotR-ai moderation microservice.

  The source under scrutiny is `src/controllers/validate.controller.js`
  (handlers `validatePost`, `validateData` with the inner function
  `extractAndParseJSON`) and the single-image handler `identifyCar`.

  Strings are modelled as `List Char`.  `JSON.parse` is modelled by a
  fuel-based recursive-descent parser `jsonParse` over the JSON grammar
  with integer numerals (the replies and payloads exercised by the spec
  use only integers); it returns `none` exactly when `JSON.parse` would
  throw on the modelled fragment.  JavaScript regular-expression matching
  for the two patterns used by the source is modelled by `jsMatch`.
-/

set_option maxHeartbeats 1000000

namespace SpotR

/-- The backtick character (used by the markdown-fence stripping). -/
def btk : Char := Char.ofNat 96

/-- The ASCII apostrophe (appears inside some French message strings). -/
def apo : Char := Char.ofNat 39

/-- JSON whitespace (also used to model `\s` and `String.trim` on the
ASCII texts exercised here). -/
def isJsonWs (c : Char) : Bool := c == ' ' || c == '\t' || c == '\n' || c == '\r'

/-- Drop leading JSON whitespace. -/
def skipWs (cs : List Char) : List Char := cs.dropWhile isJsonWs

/-- Model of `String.prototype.trim`. -/
def jsTrim (cs : List Char) : List Char :=
  ((cs.dropWhile isJsonWs).reverse.dropWhile isJsonWs).reverse

/-- JSON values as produced by `JSON.parse`. -/
inductive JVal where
  | jnull : JVal
  | jbool (b : Bool) : JVal
  | jnum (n : Int) : JVal
  | jstr (s : List Char) : JVal
  | jarr (elems : List JVal) : JVal
  | jobj (fields : List (List Char × JVal)) : JVal
deriving Repr

/-- JavaScript truthiness of a `JSON.parse` result. -/
def jsTruthy : JVal → Bool
  | .jnull => false
  | .jbool b => b
  | .jnum n => !(n == 0)
  | .jstr s => !s.isEmpty
  | .jarr _ => true
  | .jobj _ => true

/-- Property lookup `v[k]` on a parsed value (`none` models `undefined`;
for duplicate keys `JSON.parse` keeps the last occurrence). -/
def jget (v : JVal) (k : List Char) : Option JVal :=
  match v with
  | .jobj fields => (fields.reverse.find? (fun p => p.1 == k)).map (·.2)
  | _ => none

/-- Truthiness of `v[k]`, with `undefined` falsy — models `!parsed.success`. -/
def jgetTruthy (v : JVal) (k : List Char) : Bool :=
  match jget v k with
  | none => false
  | some w => jsTruthy w

/-- JSON string-escape table (`\uXXXX` is not needed by any reply text
exercised here and is conservatively rejected). -/
def escMap (c : Char) : Option Char :=
  if c == '"' || c == '\\' || c == '/' then some c
  else if c == 'n' then some '\n'
  else if c == 't' then some '\t'
  else if c == 'r' then some '\r'
  else if c == 'b' then some (Char.ofNat 8)
  else if c == 'f' then some (Char.ofNat 12)
  else none

/-- Parse the body of a JSON string literal (after the opening quote),
returning the decoded characters and the remainder after the closing
quote. -/
def parseStringBody : List Char → Option (List Char × List Char)
  | [] => none
  | c :: cs =>
    if c == '"' then some ([], cs)
    else if c == '\\' then
      match cs with
      | [] => none
      | e :: cs2 =>
        match escMap e with
        | none => none
        | some ec =>
          match parseStringBody cs2 with
          | none => none
          | some (s, r) => some (ec :: s, r)
    else
      match parseStringBody cs with
      | none => none
      | some (s, r) => some (c :: s, r)

/-- Parse one or more decimal digits into a natural number. -/
def parseNat (cs : List Char) : Option (Nat × List Char) :=
  let digs := cs.takeWhile Char.isDigit
  if digs.isEmpty then none
  else some (digs.foldl (fun a c => a * 10 + (c.toNat - 48)) 0, cs.drop digs.length)

/-- Parse a JSON integer numeral (optional minus sign). -/
def parseNumber (cs : List Char) : Option (Int × List Char) :=
  match cs with
  | [] => none
  | c :: rest =>
    if c == '-' then (parseNat rest).map (fun p => (-(p.1 : Int), p.2))
    else (parseNat cs).map (fun p => ((p.1 : Int), p.2))

mutual

/-- Recursive-descent parser for a JSON value; returns the value and the
unconsumed remainder.  The fuel argument strictly exceeds the input
length at the top-level call, and every recursive call consumes at least
one character, so fuel never runs out on a top-level invocation. -/
def parseVal : Nat → List Char → Option (JVal × List Char)
  | 0, _ => none
  | fuel + 1, cs =>
    match skipWs cs with
    | [] => none
    | c :: rest =>
      if c == '{' then
        match skipWs rest with
        | [] => none
        | c2 :: r2 => if c2 == '}' then some (.jobj [], r2) else parseMembers fuel (skipWs rest) []
      else if c == '[' then
        match skipWs rest with
        | [] => none
        | c2 :: r2 => if c2 == ']' then some (.jarr [], r2) else parseElems fuel (skipWs rest) []
      else if c == '"' then
        (parseStringBody rest).map (fun p => (.jstr p.1, p.2))
      else if c == 't' then
        if rest.take 3 = "rue".toList then some (.jbool true, rest.drop 3) else none
      else if c == 'f' then
        if rest.take 4 = "alse".toList then some (.jbool false, rest.drop 4) else none
      else if c == 'n' then
        if rest.take 3 = "ull".toList then some (.jnull, rest.drop 3) else none
      else if c == '-' || c.isDigit then
        (parseNumber (c :: rest)).map (fun p => (.jnum p.1, p.2))
      else none

/-- Parse the members of a JSON object (after the opening brace, at least
one member present). -/
def parseMembers : Nat → List Char → List (List Char × JVal) → Option (JVal × List Char)
  | 0, _, _ => none
  | fuel + 1, cs, acc =>
    match skipWs cs with
    | [] => none
    | c :: rest =>
      if c == '"' then
        match parseStringBody rest with
        | none => none
        | some (key, r1) =>
          match skipWs r1 with
          | [] => none
          | c2 :: r2 =>
            if c2 == ':' then
              match parseVal fuel r2 with
              | none => none
              | some (v, r3) =>
                match skipWs r3 with
                | [] => none
                | c3 :: r4 =>
                  if c3 == ',' then parseMembers fuel r4 (acc ++ [(key, v)])
                  else if c3 == '}' then some (.jobj (acc ++ [(key, v)]), r4)
                  else none
            else none
      else none

/-- Parse the elements of a JSON array (after the opening bracket, at
least one element present). -/
def parseElems : Nat → List Char → List JVal → Option (JVal × List Char)
  | 0, _, _ => none
  | fuel + 1, cs, acc =>
    match parseVal fuel cs with
    | none => none
    | some (v, r1) =>
      match skipWs r1 with
      | [] => none
      | c :: r2 =>
        if c == ',' then parseElems fuel r2 (acc ++ [v])
        else if c == ']' then some (.jarr (acc ++ [v]), r2)
        else none

end

/-- Model of `JSON.parse`: the whole input (up to trailing whitespace)
must form one JSON value, otherwise the parse throws (`none`). -/
def jsonParse (cs : List Char) : Option JVal :=
  match parseVal (cs.length + 1) cs with
  | some (v, rest) => if (skipWs rest).isEmpty then some v else none
  | none => none

/-! ## Text cleaning (`extractAndParseJSON`, steps before parsing)

`text.replace(PAT, '')` with a global regex and empty replacement scans
left to right, removing each match and continuing after it; `stripPat`
models this for the two fence patterns (a literal followed by a greedy
whitespace run). -/

/-- One global-replace-with-empty pass for the pattern `lit` followed by
`\s*`.  The fuel argument exceeds the input length, and each step
consumes at least one character. -/
def stripPat (lit : List Char) : Nat → List Char → List Char
  | 0, cs => cs
  | fuel + 1, cs =>
    match cs with
    | [] => []
    | c :: rest =>
      if lit.isPrefixOf (c :: rest) then
        stripPat lit fuel (((c :: rest).drop lit.length).dropWhile isJsonWs)
      else c :: stripPat lit fuel rest

/-- The literal part of the pattern `/```json\s*/g`. -/
def fenceJson : List Char := [btk, btk, btk, 'j', 's', 'o', 'n']

/-- The literal part of the pattern `/```\s*/g`. -/
def fence3 : List Char := [btk, btk, btk]

/-- Model of the cleaning prefix of `extractAndParseJSON`:
`text.replace(/```json\s*/g, '').replace(/```\s*/g, '').replace(/`/g, '').trim()`. -/
def cleanText (cs : List Char) : List Char :=
  let a := stripPat fenceJson (cs.length + 1) cs
  let b := stripPat fence3 (a.length + 1) a
  jsTrim (b.filter (fun c => !(c == btk)))

/-! ## The two brace-matching regexes

`validateData` uses `/\{[^}]*\}/` (narrow: first `{` through the next
`}`), `validatePost` and `identifyCar` use `/\{[\s\S]*\}/` (greedy:
first `{` through the last `}`).  Both anchor at the first `{` of the
text; a match exists iff some `}` occurs after it. -/

/-- Characters of `cs` up to and including the first `}` (the suffix of a
narrow-regex match after its opening brace). -/
def takeThroughFirstRB : List Char → Option (List Char)
  | [] => none
  | c :: cs =>
    if c == '}' then some [c]
    else (takeThroughFirstRB cs).map (c :: ·)

/-- Characters of `cs` up to and including the last `}` (the suffix of a
greedy-regex match after its opening brace). -/
def takeThroughLastRB (cs : List Char) : Option (List Char) :=
  let r := cs.reverse.dropWhile (fun c => !(c == '}'))
  if r.isEmpty then none else some r.reverse

/-- Model of `text.match(re)[0]` for the two regexes of the source
(`greedy = false`: `/\{[^}]*\}/`; `greedy = true`: `/\{[\s\S]*\}/`);
`none` models a failed match. -/
def jsMatch (greedy : Bool) : List Char → Option (List Char)
  | [] => none
  | c :: cs =>
    if c == '{' then
      (if greedy then takeThroughLastRB cs else takeThroughFirstRB cs).map (c :: ·)
    else jsMatch greedy cs

/-! ## The extractors -/

/-- Failure modes of the parsing blocks (JavaScript exceptions). -/
inductive ExErr where
  /-- a `SyntaxError` thrown by `JSON.parse` on the matched substring -/
  | syntaxErr : ExErr
  /-- `new Error('Aucun JSON valide trouvé')` -/
  | noJson : ExErr
  /-- `new Error('Réponse GPT invalide')` -/
  | gptInvalid : ExErr
deriving Repr, DecidableEq

/-- `{"success": true}` as synthesized by the keyword heuristic. -/
def successTrueObj : JVal := .jobj [("success".toList, .jbool true)]

/-- `{"success": false}` as synthesized by the keyword heuristic. -/
def successFalseObj : JVal := .jobj [("success".toList, .jbool false)]

/-- `pat` occurs as a contiguous substring of `hay` (`hay.includes(pat)`). -/
def containsSub : List Char → List Char → Bool
  | [], pat => pat.isEmpty
  | c :: t, pat => pat.isPrefixOf (c :: t) || containsSub t pat

/-- `cs.toLowerCase().includes(tok)`: the token occurs as a contiguous
substring of the lowercased text. -/
def hasTokenCI (cs tok : List Char) : Bool :=
  containsSub (cs.map Char.toLower) tok

/-- Model of `extractAndParseJSON` from `validateData`
(src/controllers/validate.controller.js lines 241-270): clean, direct
parse, narrow brace match (whose parse failure propagates as an
exception), then the keyword heuristic, then the terminal error. -/
def extractAndParseJSON (text : List Char) : Except ExErr JVal :=
  let cleaned := cleanText text
  match jsonParse cleaned with
  | some v => .ok v
  | none =>
    match jsMatch false cleaned with
    | some m =>
      match jsonParse m with
      | some v => .ok v
      | none => .error .syntaxErr
    | none =>
      if hasTokenCI cleaned "success".toList && hasTokenCI cleaned "true".toList then
        .ok successTrueObj
      else if hasTokenCI cleaned "success".toList && hasTokenCI cleaned "false".toList then
        .ok successFalseObj
      else .error .noJson

/-- Model of the reply-parsing block of `validatePost`
(src/controllers/validate.controller.js lines 120-129): direct parse on
the raw reply, then the greedy brace match; no cleaning, no heuristic. -/
def parsePostReply (text : List Char) : Except ExErr JVal :=
  match jsonParse text with
  | some v => .ok v
  | none =>
    match jsMatch true text with
    | some m =>
      match jsonParse m with
      | some v => .ok v
      | none => .error .syntaxErr
    | none => .error .gptInvalid

/-! ## Tag parsing (`validatePost`, lines 12-18) -/

/-- The `tags` field of the inbound body: absent (`undefined`), a string,
or an already-structured value. -/
inductive TagsField where
  | missing : TagsField
  | strv (s : List Char) : TagsField
  | other (v : JVal) : TagsField

/-- JS `split(',')`: split on every comma, keeping empty pieces. -/
def splitComma : List Char → List (List Char)
  | [] => [[]]
  | c :: cs =>
    if c == ',' then [] :: splitComma cs
    else
      match splitComma cs with
      | [] => [[c]]
      | h :: t => (c :: h) :: t

/-- Model of the tag-parsing block: a string field is `JSON.parse`d, and
on a parse failure split on commas with each token trimmed; the runtime
value of `tags` afterwards (`none` models `undefined`). -/
def processTags : TagsField → Option JVal
  | .missing => none
  | .other v => some v
  | .strv s =>
    match jsonParse s with
    | some v => some v
    | none => some (.jarr ((splitComma s).map (fun t => .jstr (jsTrim t))))

/-! ## Handler models

Each handler is modelled as a pure function of the request together with
an environment of oracle outcomes for its external collaborators
(Cloudinary upload incl. `fs.readFileSync`, the OpenAI completion call,
and the `fetch` to the persistence service).  Alongside the HTTP
response it returns the list of external calls performed and the list of
temp-file paths whose deletion (`fs.unlinkSync`) was attempted —
deletion failures are caught per file and do not alter either list. -/

/-- An HTTP response: status code and JSON body. -/
structure HResp where
  status : Nat
  body : JVal
deriving Repr

/-- External calls a handler can perform. -/
inductive EV where
  | evUpload : EV
  | evGpt : EV
  | evFetch : EV
deriving Repr, DecidableEq

/-- A runtime error message carried by a thrown exception. -/
def RtErr := List Char

/-- The message of an exception from the parsing block (the
`SyntaxError` text is abstracted to a fixed marker). -/
def msgOfExErr : ExErr → List Char
  | .syntaxErr => "SyntaxError".toList
  | .noJson => "Aucun JSON valide trouvé".toList
  | .gptInvalid => "Réponse GPT invalide".toList

/-- Truthiness of an optional string field (`!brand` etc.): absent or
empty is falsy. -/
def strTruthy : Option (List Char) → Bool
  | none => false
  | some s => !s.isEmpty

/-- Truthiness of the processed `tags` value. -/
def optTruthy : Option JVal → Bool
  | none => false
  | some v => jsTruthy v

/-- The inbound `validatePost` request: the four body fields and
`req.files` (`none` models an absent files array). -/
structure PostReq where
  brand : Option (List Char)
  carModel : Option (List Char)
  description : Option (List Char)
  tags : TagsField
  files : Option (List (List Char))

/-- Oracle outcomes for the external collaborators of `validatePost`. -/
structure PostEnv where
  /-- result of the `Promise.all` of Cloudinary uploads (the secure
  URLs), or a thrown error (also covers `fs.readFileSync`) -/
  upload : Except RtErr (List (List Char))
  /-- reply text of the completion call, or a thrown provider error -/
  gpt : Except RtErr (List Char)
  /-- `(response.ok, await response.json())` of the persistence call, or
  a thrown transport error -/
  fetchR : Except RtErr (Bool × JVal)

/-- `validatePost`'s input-validation condition (lines 22-29): any
required field falsy, or files absent or empty. -/
def postValidationFails (req : PostReq) : Bool :=
  !(strTruthy req.brand) || !(strTruthy req.carModel) || !(strTruthy req.description)
    || !(optTruthy (processTags req.tags))
    || (match req.files with
        | none => true
        | some fs => decide (fs.length < 1))

/-- `{success: false, error: 'Champs requis manquants ou images non fournies.'}` -/
def vp400Payload : JVal :=
  .jobj [("success".toList, .jbool false),
         ("error".toList, .jstr "Champs requis manquants ou images non fournies.".toList)]

/-- `{success: false, error: 'Erreur serveur', message: <err>}` -/
def serverErrPayload (msg : List Char) : JVal :=
  .jobj [("success".toList, .jbool false),
         ("error".toList, .jstr "Erreur serveur".toList),
         ("message".toList, .jstr msg)]

/-- The message `"Validation réussie mais échec de l'enregistrement"`. -/
def persistFailMsg : List Char :=
  "Validation réussie mais échec de l".toList ++ [apo] ++ "enregistrement".toList

/-- The 500 payload when the persistence call reports failure. -/
def persistFailPayload (details : JVal) : JVal :=
  .jobj [("success".toList, .jbool false),
         ("error".toList, .jstr persistFailMsg),
         ("details".toList, details)]

/-- `parsed.info || 'Post validé et créé'`. -/
def infoOf (parsed : JVal) : JVal :=
  match jget parsed "info".toList with
  | some v => if jsTruthy v then v else .jstr "Post validé et créé".toList
  | none => .jstr "Post validé et créé".toList

/-- The 201 payload on a fully successful submission. -/
def createdPayload (parsed bddResult : JVal) : JVal :=
  .jobj [("success".toList, .jbool true),
         ("info".toList, infoOf parsed),
         ("post".toList, bddResult)]

/-- Output of `validatePost`: the response, the external calls made, and
the temp-file paths whose deletion was attempted. -/
structure PostOut where
  resp : HResp
  events : List EV
  deleted : List (List Char)

/-- Model of `validatePost` (src/controllers/validate.controller.js
lines 9-188).  The `finally` block deletes each of `req.files` exactly
once on every path through the `try`; the input-validation `return`
precedes the `try`, so no deletion happens on that path. -/
def validatePostM (req : PostReq) (env : PostEnv) : PostOut :=
  if postValidationFails req then
    ⟨⟨400, vp400Payload⟩, [], []⟩
  else
    let del := match req.files with | none => [] | some fs => fs
    let core : HResp × List EV :=
      match env.upload with
      | .error e => (⟨500, serverErrPayload e⟩, [.evUpload])
      | .ok _ =>
        match env.gpt with
        | .error e => (⟨500, serverErrPayload e⟩, [.evUpload, .evGpt])
        | .ok reply =>
          match parsePostReply reply with
          | .error pe => (⟨500, serverErrPayload (msgOfExErr pe)⟩, [.evUpload, .evGpt])
          | .ok parsed =>
            if !(jgetTruthy parsed "success".toList) then
              (⟨400, parsed⟩, [.evUpload, .evGpt])
            else
              match env.fetchR with
              | .error e => (⟨500, serverErrPayload e⟩, [.evUpload, .evGpt, .evFetch])
              | .ok (bddOk, bddResult) =>
                if !bddOk then
                  (⟨500, persistFailPayload bddResult⟩, [.evUpload, .evGpt, .evFetch])
                else
                  (⟨201, createdPayload parsed bddResult⟩, [.evUpload, .evGpt, .evFetch])
    ⟨core.1, core.2, del⟩

/-- Oracle outcome for the single external collaborator of
`validateData` and `identifyCar`. -/
structure DataEnv where
  /-- reply text of the completion call, or a thrown provider error -/
  gpt : Except RtErr (List Char)

/-- `{success: false, error: 'Aucune donnée fournie.'}` -/
def noDataPayload : JVal :=
  .jobj [("success".toList, .jbool false),
         ("error".toList, .jstr "Aucune donnée fournie.".toList)]

/-- The 500 payload of `validateData` when extraction fails. -/
def parseFailPayload (pe : ExErr) : JVal :=
  .jobj [("success".toList, .jbool false),
         ("error".toList, .jstr "Erreur de validation - réponse GPT invalide".toList),
         ("details".toList, .jstr (msgOfExErr pe))]

/-- `{success: false, error: 'Contenu inapproprié détecté'}` (status 200). -/
def dataRejectedPayload : JVal :=
  .jobj [("success".toList, .jbool false),
         ("error".toList, .jstr "Contenu inapproprié détecté".toList)]

/-- `{success: true, message: 'Données validées avec succès'}` (status 200). -/
def dataOkPayload : JVal :=
  .jobj [("success".toList, .jbool true),
         ("message".toList, .jstr "Données validées avec succès".toList)]

/-- Output of `validateData`: the response and the external calls made. -/
structure DataOut where
  resp : HResp
  events : List EV

/-- Model of `validateData` (src/controllers/validate.controller.js
lines 190-303).  `body` is `req.body` (`none` models `null`/`undefined`). -/
def validateDataM (body : Option JVal) (env : DataEnv) : DataOut :=
  if !(match body with | none => false | some v => jsTruthy v) then
    ⟨⟨400, noDataPayload⟩, []⟩
  else
    match env.gpt with
    | .error e => ⟨⟨500, serverErrPayload e⟩, [.evGpt]⟩
    | .ok content =>
      match extractAndParseJSON (jsTrim content) with
      | .error pe => ⟨⟨500, parseFailPayload pe⟩, [.evGpt]⟩
      | .ok parsed =>
        if !(jgetTruthy parsed "success".toList) then ⟨⟨200, dataRejectedPayload⟩, [.evGpt]⟩
        else ⟨⟨200, dataOkPayload⟩, [.evGpt]⟩

/-! ## The `identifyCar` handler (src/unnamed/part_000) -/

/-- `{success: false, error: "Aucune image n'a été fournie."}` -/
def noImagePayload : JVal :=
  .jobj [("success".toList, .jbool false),
         ("error".toList, .jstr ("Aucune image n".toList ++ [apo] ++ "a été fournie.".toList))]

/-- The 500 payload when the greedy-matched substring fails to parse. -/
def idInvalidFmtPayload (raw : List Char) : JVal :=
  .jobj [("success".toList, .jbool false),
         ("error".toList,
          .jstr ("Format de réponse invalide de l".toList ++ [apo] ++ "API".toList)),
         ("rawResponse".toList, .jstr raw)]

/-- The 500 payload when no brace-delimited substring is found. -/
def idUnexpectedFmtPayload (raw : List Char) : JVal :=
  .jobj [("success".toList, .jbool false),
         ("error".toList, .jstr "Format de réponse inattendu".toList),
         ("rawResponse".toList, .jstr raw)]

/-- The 500 payload of `identifyCar`'s outer catch. -/
def idServerErrPayload (msg : List Char) : JVal :=
  .jobj [("success".toList, .jbool false),
         ("error".toList, .jstr "Erreur serveur ou image non traitable.".toList),
         ("message".toList, .jstr msg)]

/-- Model of `identifyCar` from src/unnamed/part_000 (lines 8-99).
`file` is `req.file.path` (`none` models a missing upload; an empty path
is falsy and also rejected).  Returns the response and the deletion
attempts: one per path on every path past the input check. -/
def identifyCarM (file : Option (List Char)) (env : DataEnv) : HResp × List (List Char) :=
  match file with
  | none => (⟨400, noImagePayload⟩, [])
  | some path =>
    if path.isEmpty then (⟨400, noImagePayload⟩, [])
    else
      let resp : HResp :=
        match env.gpt with
        | .error e => ⟨500, idServerErrPayload e⟩
        | .ok reply =>
          match jsonParse reply with
          | some v => ⟨200, v⟩
          | none =>
            match jsMatch true reply with
            | some m =>
              match jsonParse m with
              | some v => ⟨200, v⟩
              | none => ⟨500, idInvalidFmtPayload reply⟩
            | none => ⟨500, idUnexpectedFmtPayload reply⟩
      (resp, [path])

/-- A character that cannot begin a JSON value (used to state when the
direct parse of prose-led text fails). -/
def notValStarter (c : Char) : Bool :=
  !(c == '{' || c == '[' || c == '"' || c == 't' || c == 'f' || c == 'n'
    || c == '-' || c.isDigit)

/-- Join tokens with single commas (the inverse image of `splitComma`
used to state the comma-separated-tags property). -/
def joinComma : List (List Char) → List Char
  | [] => []
  | [t] => t
  | t :: rest => t ++ ',' :: joinComma rest

/-! ## Characterization of the two brace-matching strategies

The narrow regex `/\{[^}]*\}/` matches from the first `{` of the text
through the next `}` after it; the greedy regex `/\{[\s\S]*\}/` matches
from the first `{` through the last `}`.  Decompositions `pre ++ '{' ::
mid ++ '}' :: post` with `'{' ∉ pre` (first brace), `'}' ∉ mid` (next
closing brace) resp. `'}' ∉ post` (last closing brace) state this. -/

theorem dropWhile_head_false {p : Char → Bool} :
    ∀ {xs a as}, List.dropWhile p xs = a :: as → p a = false := by
  intro xs
  induction xs with
  | nil => intro a as h; simp [List.dropWhile] at h
  | cons x t ih =>
    intro a as h
    rw [List.dropWhile_cons] at h
    by_cases hp : p x
    · rw [if_pos hp] at h; exact ih h
    · rw [if_neg hp] at h
      cases h
      simpa using hp

theorem dropWhile_append_all {p : Char → Bool} :
    ∀ {A B : List Char}, (∀ x ∈ A, p x = true) →
      List.dropWhile p (A ++ B) = List.dropWhile p B := by
  intro A
  induction A with
  | nil => intro B _; rfl
  | cons a t ih =>
    intro B h
    rw [List.cons_append, List.dropWhile_cons, if_pos (h a (by simp))]
    exact ih fun x hx => h x (by simp [hx])

theorem ttfRB_sound : ∀ {l b : List Char}, takeThroughFirstRB l = some b →
    ∃ mid post, l = mid ++ '}' :: post ∧ '}' ∉ mid ∧ b = mid ++ ['}'] := by
  intro l
  induction l with
  | nil => intro b h; simp [takeThroughFirstRB] at h
  | cons c t ih =>
    intro b h
    by_cases hc : c = '}'
    · subst hc
      simp [takeThroughFirstRB] at h
      exact ⟨[], t, rfl, by simp, h.symm⟩
    · rw [takeThroughFirstRB, if_neg (by simpa using hc)] at h
      rcases Option.map_eq_some'.mp h with ⟨b', hb', rfl⟩
      rcases ih hb' with ⟨mid, post, rfl, hmid, rfl⟩
      refine ⟨c :: mid, post, rfl, ?_, rfl⟩
      simp only [List.mem_cons, not_or]
      exact ⟨fun h1 => hc h1.symm, hmid⟩

theorem ttfRB_complete : ∀ {mid post : List Char}, '}' ∉ mid →
    takeThroughFirstRB (mid ++ '}' :: post) = some (mid ++ ['}']) := by
  intro mid
  induction mid with
  | nil => intro post _; simp [takeThroughFirstRB]
  | cons c t ih =>
    intro post h
    have hc : c ≠ '}' := fun hcc => h (by simp [hcc])
    rw [List.cons_append, takeThroughFirstRB, if_neg (by simpa using hc),
      ih fun hm => h (by simp [hm])]
    rfl

theorem ttlRB_sound : ∀ {l b : List Char}, takeThroughLastRB l = some b →
    ∃ mid post, l = mid ++ '}' :: post ∧ '}' ∉ post ∧ b = mid ++ ['}'] := by
  intro l b h
  simp only [takeThroughLastRB] at h
  cases hrc : l.reverse.dropWhile (fun c => !(c == '}')) with
  | nil => rw [hrc] at h; simp at h
  | cons r0 r' =>
    rw [hrc] at h
    simp only [List.isEmpty_cons, Bool.false_eq_true, if_false, Option.some.injEq] at h
    have hr0 : r0 = '}' := by simpa using dropWhile_head_false hrc
    subst hr0
    subst h
    have hsplit := List.takeWhile_append_dropWhile (fun c => !(c == '}')) l.reverse
    rw [hrc] at hsplit
    refine ⟨r'.reverse, (l.reverse.takeWhile (fun c => !(c == '}'))).reverse, ?_, ?_, ?_⟩
    · have hl : l = (l.reverse.takeWhile (fun c => !(c == '}')) ++ ('}' :: r')).reverse := by
        rw [hsplit, List.reverse_reverse]
      conv_lhs => rw [hl]
      simp
    · intro hmem
      have := List.mem_takeWhile_imp (List.mem_reverse.mp hmem)
      simp at this
    · simp

theorem ttlRB_complete : ∀ {mid post : List Char}, '}' ∉ post →
    takeThroughLastRB (mid ++ '}' :: post) = some (mid ++ ['}']) := by
  intro mid post h
  unfold takeThroughLastRB
  have hrev : (mid ++ '}' :: post).reverse = post.reverse ++ '}' :: mid.reverse := by
    rw [List.reverse_append, List.reverse_cons, List.append_assoc]; simp
  have hall : ∀ x ∈ post.reverse, (!(x == '}')) = true := by
    intro x hx
    have : x ∈ post := List.mem_reverse.mp hx
    simp only [Bool.not_eq_true', beq_eq_false_iff_ne, ne_eq]
    exact fun hxx => h (hxx ▸ this)
  rw [hrev, dropWhile_append_all hall, List.dropWhile_cons]
  simp

theorem jsMatch_cons_brace (g : Bool) (cs : List Char) :
    jsMatch g ('{' :: cs) =
      (if g then takeThroughLastRB cs else takeThroughFirstRB cs).map ('{' :: ·) := rfl

theorem jsMatch_skip {g : Bool} :
    ∀ {pre xs : List Char}, '{' ∉ pre → jsMatch g (pre ++ xs) = jsMatch g xs := by
  intro pre
  induction pre with
  | nil => intro xs _; rfl
  | cons c t ih =>
    intro xs h
    have hc : c ≠ '{' := fun hcc => h (by simp [hcc])
    rw [List.cons_append, jsMatch, if_neg (by simpa using hc)]
    exact ih fun hm => h (by simp [hm])

theorem jsMatch_false_sound : ∀ {cs r : List Char}, jsMatch false cs = some r →
    ∃ pre mid post, cs = pre ++ '{' :: mid ++ '}' :: post ∧ '{' ∉ pre ∧ '}' ∉ mid ∧
      r = '{' :: (mid ++ ['}']) := by
  intro cs
  induction cs with
  | nil => intro r h; simp [jsMatch] at h
  | cons c t ih =>
    intro r h
    by_cases hc : c = '{'
    · subst hc
      rw [jsMatch_cons_brace, if_neg Bool.false_ne_true] at h
      rcases Option.map_eq_some'.mp h with ⟨b, hb, rfl⟩
      rcases ttfRB_sound hb with ⟨mid, post, rfl, hmid, rfl⟩
      exact ⟨[], mid, post, rfl, by simp, hmid, rfl⟩
    · rw [jsMatch, if_neg (by simpa using hc)] at h
      rcases ih h with ⟨pre, mid, post, rfl, hpre, hmid, rfl⟩
      refine ⟨c :: pre, mid, post, rfl, ?_, hmid, rfl⟩
      simp only [List.mem_cons, not_or]
      exact ⟨fun h1 => hc h1.symm, hpre⟩

theorem jsMatch_false_complete {pre mid post : List Char} (hpre : '{' ∉ pre)
    (hmid : '}' ∉ mid) :
    jsMatch false (pre ++ '{' :: mid ++ '}' :: post) = some ('{' :: (mid ++ ['}'])) := by
  have h1 : pre ++ '{' :: mid ++ '}' :: post = pre ++ ('{' :: (mid ++ '}' :: post)) := by
    simp
  rw [h1, jsMatch_skip hpre, jsMatch_cons_brace]
  simp [ttfRB_complete hmid]

theorem jsMatch_true_sound : ∀ {cs r : List Char}, jsMatch true cs = some r →
    ∃ pre mid post, cs = pre ++ '{' :: mid ++ '}' :: post ∧ '{' ∉ pre ∧ '}' ∉ post ∧
      r = '{' :: (mid ++ ['}']) := by
  intro cs
  induction cs with
  | nil => intro r h; simp [jsMatch] at h
  | cons c t ih =>
    intro r h
    by_cases hc : c = '{'
    · subst hc
      rw [jsMatch_cons_brace, if_pos rfl] at h
      rcases Option.map_eq_some'.mp h with ⟨b, hb, rfl⟩
      rcases ttlRB_sound hb with ⟨mid, post, rfl, hpost, rfl⟩
      exact ⟨[], mid, post, rfl, by simp, hpost, rfl⟩
    · rw [jsMatch, if_neg (by simpa using hc)] at h
      rcases ih h with ⟨pre, mid, post, rfl, hpre, hpost, rfl⟩
      refine ⟨c :: pre, mid, post, rfl, ?_, hpost, rfl⟩
      simp only [List.mem_cons, not_or]
      exact ⟨fun h1 => hc h1.symm, hpre⟩

theorem jsMatch_true_complete {pre mid post : List Char} (hpre : '{' ∉ pre)
    (hpost : '}' ∉ post) :
    jsMatch true (pre ++ '{' :: mid ++ '}' :: post) = some ('{' :: (mid ++ ['}'])) := by
  have h1 : pre ++ '{' :: mid ++ '}' :: post = pre ++ ('{' :: (mid ++ '}' :: post)) := by
    simp
  rw [h1, jsMatch_skip hpre, jsMatch_cons_brace]
  simp [ttlRB_complete hpost]

/-! ## Cleaning and trimming lemmas -/

theorem dropWhile_id_of_head {cs : List Char}
    (h : ∀ c, cs.head? = some c → isJsonWs c = false) :
    cs.dropWhile isJsonWs = cs := by
  cases cs with
  | nil => rfl
  | cons c t => rw [List.dropWhile_cons, if_neg (by simp [h c rfl])]

theorem jsTrim_id {cs : List Char}
    (h1 : ∀ c, cs.head? = some c → isJsonWs c = false)
    (h2 : ∀ c, cs.reverse.head? = some c → isJsonWs c = false) :
    jsTrim cs = cs := by
  unfold jsTrim
  rw [dropWhile_id_of_head h1, dropWhile_id_of_head h2, List.reverse_reverse]

theorem stripPat_id {lit' : List Char} :
    ∀ fuel cs, btk ∉ cs → stripPat (btk :: lit') fuel cs = cs := by
  intro fuel
  induction fuel with
  | zero => intro cs _; rfl
  | succ n ih =>
    intro cs h
    cases cs with
    | nil => rfl
    | cons c rest =>
      have hc : btk ≠ c := fun hcc => h (by simp [hcc.symm])
      have hpref : (btk :: lit').isPrefixOf (c :: rest) = false := by
        simp only [List.isPrefixOf, Bool.and_eq_false_iff]
        left
        simpa using hc
      rw [stripPat, if_neg (by simp [hpref]), ih rest fun hm => h (by simp [hm])]

theorem cleanText_no_btk {cs : List Char} (h : btk ∉ cs) : cleanText cs = jsTrim cs := by
  have hfil : cs.filter (fun c => !(c == btk)) = cs := by
    rw [List.filter_eq_self]
    intro a ha
    have hab : a ≠ btk := fun haa => h (haa ▸ ha)
    simp [hab]
  simp only [cleanText, fenceJson, fence3]
  rw [stripPat_id _ _ h, stripPat_id _ _ h, hfil]

/-! ## Direct parse fails on text led by a non-starter character -/

theorem parseVal_nonstarter {c : Char} {rest : List Char} {fuel : Nat}
    (hns : notValStarter c = true) (cs : List Char) (hsk : skipWs cs = c :: rest) :
    parseVal (fuel + 1) cs = none := by
  have h := hns
  simp only [notValStarter, Bool.not_eq_true', Bool.or_eq_false_iff] at h
  obtain ⟨⟨⟨⟨⟨⟨⟨e1, e2⟩, e3⟩, e4⟩, e5⟩, e6⟩, e7⟩, e8⟩ := h
  rw [parseVal, hsk]
  simp [e1, e2, e3, e4, e5, e6, e7, e8]

theorem jsonParse_nonstarter {cs : List Char} {c : Char} {rest : List Char}
    (hsk : skipWs cs = c :: rest) (hns : notValStarter c = true) :
    jsonParse cs = none := by
  rw [jsonParse, parseVal_nonstarter hns cs hsk]

/-! ## Comma splitting -/

theorem splitComma_no_comma : ∀ {t : List Char}, ',' ∉ t → splitComma t = [t] := by
  intro t
  induction t with
  | nil => intro _; rfl
  | cons c cs ih =>
    intro h
    have hc : c ≠ ',' := fun hcc => h (by simp [hcc])
    rw [splitComma, if_neg (by simpa using hc), ih fun hm => h (by simp [hm])]

theorem splitComma_append {t r : List Char} (h : ',' ∉ t) :
    splitComma (t ++ ',' :: r) = t :: splitComma r := by
  induction t with
  | nil =>
    rw [List.nil_append, splitComma, if_pos (beq_self_eq_true ',')]
  | cons c cs ih =>
    have hc : c ≠ ',' := fun hcc => h (by simp [hcc])
    rw [List.cons_append, splitComma, if_neg (by simpa using hc),
      ih fun hm => h (by simp [hm])]

theorem splitComma_joinComma : ∀ {toks : List (List Char)}, toks ≠ [] →
    (∀ t ∈ toks, ',' ∉ t) → splitComma (joinComma toks) = toks := by
  intro toks
  induction toks with
  | nil => intro h _; exact absurd rfl h
  | cons t rest ih =>
    intro _ hall
    cases rest with
    | nil => exact splitComma_no_comma (hall t (by simp))
    | cons t2 rest2 =>
      have hj : joinComma (t :: t2 :: rest2) = t ++ ',' :: joinComma (t2 :: rest2) := rfl
      rw [hj, splitComma_append (hall t (by simp)),
        ih (by simp) fun x hx => hall x (by simp [hx])]

/-! ## Claim theorems -/

/-- C3: two brace-matching strategies exist depending on flow.  The
narrow match (`jsMatch false`, used by `validateData`'s
`extractAndParseJSON`) returns exactly the substring from the first `{`
to the next `}`; the greedy match (`jsMatch true`, used by
`validatePost`'s reply parsing) returns exactly the substring from the
first `{` to the last `}`.  When the direct parse fails, each extractor
consults its own strategy; the keyword heuristic exists only in the
plain-data flow, and the media-review parser fails outright when no
brace substring is found. -/
theorem c3_two_matching_strategies :
    (∀ cs r : List Char, jsMatch false cs = some r →
      ∃ pre mid post, cs = pre ++ '{' :: mid ++ '}' :: post ∧ '{' ∉ pre ∧ '}' ∉ mid ∧
        r = '{' :: (mid ++ ['}'])) ∧
    (∀ pre mid post : List Char, '{' ∉ pre → '}' ∉ mid →
      jsMatch false (pre ++ '{' :: mid ++ '}' :: post) = some ('{' :: (mid ++ ['}']))) ∧
    (∀ cs r : List Char, jsMatch true cs = some r →
      ∃ pre mid post, cs = pre ++ '{' :: mid ++ '}' :: post ∧ '{' ∉ pre ∧ '}' ∉ post ∧
        r = '{' :: (mid ++ ['}'])) ∧
    (∀ pre mid post : List Char, '{' ∉ pre → '}' ∉ post →
      jsMatch true (pre ++ '{' :: mid ++ '}' :: post) = some ('{' :: (mid ++ ['}']))) ∧
    (∀ (t m : List Char) (v : JVal), jsonParse (cleanText t) = none →
      jsMatch false (cleanText t) = some m → jsonParse m = some v →
      extractAndParseJSON t = .ok v) ∧
    (∀ (t m : List Char) (v : JVal), jsonParse t = none →
      jsMatch true t = some m → jsonParse m = some v →
      parsePostReply t = .ok v) ∧
    (extractAndParseJSON "success true".toList = .ok successTrueObj ∧
      parsePostReply "success true".toList = .error .gptInvalid) ∧
    (∀ t : List Char, jsonParse t = none → jsMatch true t = none →
      parsePostReply t = .error .gptInvalid) := by
  refine ⟨fun cs r h => jsMatch_false_sound h,
    fun pre mid post h1 h2 => jsMatch_false_complete h1 h2,
    fun cs r h => jsMatch_true_sound h,
    fun pre mid post h1 h2 => jsMatch_true_complete h1 h2,
    fun t m v h1 h2 h3 => ?_, fun t m v h1 h2 h3 => ?_,
    ⟨rfl, rfl⟩, fun t h1 h2 => ?_⟩
  · simp only [extractAndParseJSON, h1, h2, h3]
  · simp only [parsePostReply, h1, h2, h3]
  · simp only [parsePostReply, h1, h2]

/-- C3 witness: both strategies evaluated at concrete decompositions,
and the extractor links at a concrete prose-wrapped reply. -/
theorem c3_two_matching_strategies_witness :
    jsMatch false ("ab".toList ++ '{' :: "cd".toList ++ '}' :: "ef\x7bgh\x7d".toList)
        = some ('{' :: ("cd".toList ++ ['}'])) ∧
    jsMatch true ("ab".toList ++ '{' :: "cd\x7def\x7bgh".toList ++ '}' :: ([] : List Char))
        = some ('{' :: ("cd\x7def\x7bgh".toList ++ ['}'])) ∧
    extractAndParseJSON "Préfixe \x7b\"success\": true\x7d suffixe".toList
        = .ok successTrueObj ∧
    parsePostReply "rien ici".toList = .error .gptInvalid := by
  refine ⟨c3_two_matching_strategies.2.1 _ _ _ (by decide) (by decide),
    c3_two_matching_strategies.2.2.2.1 _ _ _ (by decide) (by decide),
    c3_two_matching_strategies.2.2.2.2.1 _ "\x7b\"success\": true\x7d".toList
      successTrueObj rfl rfl rfl,
    c3_two_matching_strategies.2.2.2.2.2.2.2 _ rfl rfl⟩

/-- C10: tag parsing of a string-valued `tags` field never throws — it
always produces a value; a valid JSON array string parses to that exact
array; a comma-separated string (tokens without commas, not itself
valid JSON) yields the trimmed tokens in their original order. -/
theorem c10_tag_parsing :
    (∀ s : List Char, (processTags (.strv s)).isSome = true) ∧
    (∀ (s : List Char) (xs : List JVal), jsonParse s = some (.jarr xs) →
      processTags (.strv s) = some (.jarr xs)) ∧
    (∀ toks : List (List Char), toks ≠ [] → (∀ t ∈ toks, ',' ∉ t) →
      jsonParse (joinComma toks) = none →
      processTags (.strv (joinComma toks)) =
        some (.jarr (toks.map fun t => .jstr (jsTrim t)))) := by
  refine ⟨fun s => ?_, fun s xs h => ?_, fun toks h1 h2 h3 => ?_⟩
  · cases h : jsonParse s <;> simp [processTags, h]
  · simp only [processTags, h]
  · simp only [processTags, h3, splitComma_joinComma h1 h2]

/-- C10 witness: a JSON array string and a comma-separated string, both
evaluated concretely. -/
theorem c10_tag_parsing_witness :
    processTags (.strv "[\"berline\",\"fiable\"]".toList)
        = some (.jarr [.jstr "berline".toList, .jstr "fiable".toList]) ∧
    processTags (.strv (joinComma ["berline".toList, " fiable ".toList]))
        = some (.jarr [.jstr "berline".toList, .jstr "fiable".toList]) ∧
    (processTags (.strv "n importe, quoi".toList)).isSome = true := by
  refine ⟨c10_tag_parsing.2.1 _ _ rfl, ?_, c10_tag_parsing.1 _⟩
  have h := c10_tag_parsing.2.2 ["berline".toList, " fiable ".toList]
    (by simp) (by decide) rfl
  simpa using h

/-- C1 counterexample: on `\x7bsuccess: true\x7d` the narrow match finds a
brace substring that fails to parse, the keyword-heuristic conditions
hold, and yet extraction aborts with the parse error instead of
proceeding to the heuristic. -/
theorem c1_counterexample :
    jsonParse (cleanText "\x7bsuccess: true\x7d".toList) = none ∧
    jsMatch false (cleanText "\x7bsuccess: true\x7d".toList)
        = some "\x7bsuccess: true\x7d".toList ∧
    jsonParse "\x7bsuccess: true\x7d".toList = none ∧
    hasTokenCI (cleanText "\x7bsuccess: true\x7d".toList) "success".toList = true ∧
    hasTokenCI (cleanText "\x7bsuccess: true\x7d".toList) "true".toList = true ∧
    extractAndParseJSON "\x7bsuccess: true\x7d".toList = .error .syntaxErr :=
  ⟨rfl, rfl, rfl, rfl, rfl, rfl⟩

/-- C1 (amended): the chain is ordered, but a later step runs only when
the previous step found nothing — if the narrow match finds a substring
that fails to parse, extraction aborts with that parse error (the
heuristic is not consulted); the heuristic runs only when no brace
substring was found at all. -/
theorem c1_fallback_chain_order :
    (∀ t m : List Char, jsonParse (cleanText t) = none →
      jsMatch false (cleanText t) = some m → jsonParse m = none →
      extractAndParseJSON t = .error .syntaxErr) ∧
    (∀ t : List Char, jsonParse (cleanText t) = none →
      jsMatch false (cleanText t) = none →
      hasTokenCI (cleanText t) "success".toList = true →
      hasTokenCI (cleanText t) "true".toList = true →
      extractAndParseJSON t = .ok successTrueObj) := by
  constructor
  · intro t m h1 h2 h3
    simp only [extractAndParseJSON, h1, h2, h3]
  · intro t h1 h2 h3 h4
    simp only [extractAndParseJSON, h1, h2, h3, h4, Bool.and_self, if_true]

/-- C1 witness: a reply whose brace substring is not JSON aborts; a
reply with no braces at all reaches the heuristic. -/
theorem c1_fallback_chain_order_witness :
    extractAndParseJSON "oops \x7bnot json\x7d end".toList = .error .syntaxErr ∧
    extractAndParseJSON "le success est true".toList = .ok successTrueObj :=
  ⟨c1_fallback_chain_order.1 "oops \x7bnot json\x7d end".toList
      "\x7bnot json\x7d".toList rfl rfl rfl,
    c1_fallback_chain_order.2 "le success est true".toList rfl rfl rfl rfl⟩

/-- C4 counterexample: `\x7bsuccess: false\x7d` has no parseable
brace-delimited substring and contains the tokens `success` and
`false`, but the extractor throws instead of synthesizing
`{success: false}`, because the unparseable matched substring aborts
the chain before the heuristic. -/
theorem c4_counterexample :
    jsonParse (cleanText "\x7bsuccess: false\x7d".toList) = none ∧
    hasTokenCI (cleanText "\x7bsuccess: false\x7d".toList) "success".toList = true ∧
    hasTokenCI (cleanText "\x7bsuccess: false\x7d".toList) "false".toList = true ∧
    extractAndParseJSON "\x7bsuccess: false\x7d".toList = .error .syntaxErr :=
  ⟨rfl, rfl, rfl, rfl⟩

/-- C4 (amended): when the direct parse fails and the narrow pattern
finds no brace substring at all, the heuristic synthesizes
`{success: true}` if the cleaned text case-insensitively contains
`success` and `true`, and `{success: false}` if it contains `success`
and `false` but not `true`; in particular a boolean-only `success`
verdict is recovered from token-bearing prose without braces. -/
theorem c4_keyword_heuristic :
    ∀ t : List Char, jsonParse (cleanText t) = none →
      jsMatch false (cleanText t) = none →
      (hasTokenCI (cleanText t) "success".toList = true →
        hasTokenCI (cleanText t) "true".toList = true →
        extractAndParseJSON t = .ok successTrueObj) ∧
      (hasTokenCI (cleanText t) "success".toList = true →
        hasTokenCI (cleanText t) "true".toList = false →
        hasTokenCI (cleanText t) "false".toList = true →
        extractAndParseJSON t = .ok successFalseObj) := by
  intro t h1 h2
  constructor
  · intro h3 h4
    simp only [extractAndParseJSON, h1, h2, h3, h4, Bool.and_self, if_true]
  · intro h3 h4 h5
    simp only [extractAndParseJSON, h1, h2, h3, h4, h5, Bool.and_true, Bool.and_false,
      Bool.true_and, Bool.false_eq_true, if_false, if_true]

/-- C4 witness: both heuristic branches at concrete brace-free replies. -/
theorem c4_keyword_heuristic_witness :
    extractAndParseJSON "Success is TRUE here".toList = .ok successTrueObj ∧
    extractAndParseJSON "the success flag is false".toList = .ok successFalseObj :=
  ⟨(c4_keyword_heuristic "Success is TRUE here".toList rfl rfl).1 rfl rfl,
    (c4_keyword_heuristic "the success flag is false".toList rfl rfl).2 rfl rfl rfl⟩

/-- C6 counterexample: the plain-data extractor produces a result from
`a success, so true` although no brace-delimited substring exists and
nothing was parsed — the result is synthesized by the keyword
heuristic, so an ExtractedResult is not only ever produced by locating
and parsing a JSON object. -/
theorem c6_counterexample :
    extractAndParseJSON "a success, so true".toList = .ok successTrueObj ∧
    jsMatch false (cleanText "a success, so true".toList) = none ∧
    jsonParse (cleanText "a success, so true".toList) = none :=
  ⟨rfl, rfl, rfl⟩

/-- C6 (amended): an extraction result arises only from the direct parse
of the cleaned text, from the parse of the single brace-matched
substring, or — in the plain-data flow only, when no brace substring
exists — from the keyword heuristic (yielding one of the two boolean
verdict objects); when none of these applies, extraction fails
terminally.  The single-image flow produces a 200 result only from a
successful direct or brace-substring parse. -/
theorem c6_extraction_origin :
    (∀ (t : List Char) (v : JVal), extractAndParseJSON t = .ok v →
      jsonParse (cleanText t) = some v ∨
      (jsonParse (cleanText t) = none ∧
        ∃ m, jsMatch false (cleanText t) = some m ∧ jsonParse m = some v) ∨
      (jsonParse (cleanText t) = none ∧ jsMatch false (cleanText t) = none ∧
        (v = successTrueObj ∨ v = successFalseObj))) ∧
    (∀ t : List Char, jsonParse (cleanText t) = none →
      jsMatch false (cleanText t) = none →
      hasTokenCI (cleanText t) "success".toList = false →
      extractAndParseJSON t = .error .noJson) ∧
    (∀ (path reply : List Char) (env : DataEnv) (v : JVal), env.gpt = .ok reply →
      (identifyCarM (some path) env).1 = ⟨200, v⟩ →
      jsonParse reply = some v ∨
        ∃ m, jsMatch true reply = some m ∧ jsonParse m = some v) := by
  refine ⟨fun t v h => ?_, fun t h1 h2 h3 => ?_, fun path reply env v hgpt h => ?_⟩
  · cases h1 : jsonParse (cleanText t) with
    | some w =>
      have he : extractAndParseJSON t = .ok w := by simp only [extractAndParseJSON, h1]
      rw [he] at h
      simp only [Except.ok.injEq] at h
      subst h
      exact Or.inl rfl
    | none =>
      cases h2 : jsMatch false (cleanText t) with
      | some m =>
        cases h3 : jsonParse m with
        | some w =>
          have he : extractAndParseJSON t = .ok w := by
            simp only [extractAndParseJSON, h1, h2, h3]
          rw [he] at h
          simp only [Except.ok.injEq] at h
          subst h
          exact Or.inr (Or.inl ⟨rfl, m, rfl, h3⟩)
        | none =>
          have he : extractAndParseJSON t = .error .syntaxErr := by
            simp only [extractAndParseJSON, h1, h2, h3]
          rw [he] at h
          exact absurd h (by simp)
      | none =>
        refine Or.inr (Or.inr ⟨rfl, rfl, ?_⟩)
        by_cases hc1 : (hasTokenCI (cleanText t) "success".toList
            && hasTokenCI (cleanText t) "true".toList) = true
        · have he : extractAndParseJSON t = .ok successTrueObj := by
            simp only [extractAndParseJSON, h1, h2, hc1, if_true]
          rw [he] at h
          simp only [Except.ok.injEq] at h
          exact Or.inl h.symm
        · have hc1' : (hasTokenCI (cleanText t) "success".toList
              && hasTokenCI (cleanText t) "true".toList) = false := by
            simpa using hc1
          by_cases hc2 : (hasTokenCI (cleanText t) "success".toList
              && hasTokenCI (cleanText t) "false".toList) = true
          · have he : extractAndParseJSON t = .ok successFalseObj := by
              simp only [extractAndParseJSON, h1, h2, hc1', hc2, Bool.false_eq_true,
                if_false, if_true]
            rw [he] at h
            simp only [Except.ok.injEq] at h
            exact Or.inr h.symm
          · have hc2' : (hasTokenCI (cleanText t) "success".toList
                && hasTokenCI (cleanText t) "false".toList) = false := by
              simpa using hc2
            have he : extractAndParseJSON t = .error .noJson := by
              simp only [extractAndParseJSON, h1, h2, hc1', hc2', Bool.false_eq_true,
                if_false]
            rw [he] at h
            exact absurd h (by simp)
  · have hs : (hasTokenCI (cleanText t) "success".toList
        && hasTokenCI (cleanText t) "true".toList) = false := by rw [h3]; rfl
    have hf : (hasTokenCI (cleanText t) "success".toList
        && hasTokenCI (cleanText t) "false".toList) = false := by rw [h3]; rfl
    simp only [extractAndParseJSON, h1, h2, hs, hf, Bool.false_eq_true, if_false]
  · by_cases hp : path.isEmpty = true
    · have he : (identifyCarM (some path) env).1 = ⟨400, noImagePayload⟩ := by
        simp only [identifyCarM, hp, if_true]
      rw [he] at h
      simp only [HResp.mk.injEq] at h
      exact absurd h.1 (by omega)
    · have hp' : path.isEmpty = false := by simpa using hp
      cases h1 : jsonParse reply with
      | some w =>
        have he : (identifyCarM (some path) env).1 = ⟨200, w⟩ := by
          simp only [identifyCarM, hp', Bool.false_eq_true, if_false, hgpt, h1]
        rw [he] at h
        simp only [HResp.mk.injEq, true_and] at h
        subst h
        exact Or.inl rfl
      | none =>
        cases h2 : jsMatch true reply with
        | some m =>
          cases h3 : jsonParse m with
          | some w =>
            have he : (identifyCarM (some path) env).1 = ⟨200, w⟩ := by
              simp only [identifyCarM, hp', Bool.false_eq_true, if_false, hgpt, h1, h2, h3]
            rw [he] at h
            simp only [HResp.mk.injEq, true_and] at h
            subst h
            exact Or.inr ⟨m, rfl, h3⟩
          | none =>
            have he : (identifyCarM (some path) env).1 = ⟨500, idInvalidFmtPayload reply⟩ := by
              simp only [identifyCarM, hp', Bool.false_eq_true, if_false, hgpt, h1, h2, h3]
            rw [he] at h
            simp only [HResp.mk.injEq] at h
            exact absurd h.1 (by omega)
        | none =>
          have he : (identifyCarM (some path) env).1 = ⟨500, idUnexpectedFmtPayload reply⟩ := by
            simp only [identifyCarM, hp', Bool.false_eq_true, if_false, hgpt, h1, h2]
          rw [he] at h
          simp only [HResp.mk.injEq] at h
          exact absurd h.1 (by omega)

/-- C6 witness: a reply that is a bare JSON value is returned by the
single-image flow via the direct parse, and a terminal failure occurs
on token-free prose. -/
theorem c6_extraction_origin_witness :
    (jsonParse "true".toList = some (JVal.jbool true) ∨
      ∃ m, jsMatch true "true".toList = some m ∧ jsonParse m = some (JVal.jbool true)) ∧
    extractAndParseJSON "rien du tout".toList = .error .noJson :=
  ⟨c6_extraction_origin.2.2 "p".toList "true".toList ⟨.ok "true".toList⟩
      (JVal.jbool true) rfl rfl,
    c6_extraction_origin.2.1 "rien du tout".toList rfl rfl rfl⟩

/-- C5 counterexample: wrapping clean JSON in arbitrary prose does not
preserve the extraction result — prose containing braces breaks both
flows: the clean object extracts, the same object preceded by
`\x7boops\x7d ` throws in both extractors. -/
theorem c5_counterexample :
    extractAndParseJSON "\x7b\"success\": true\x7d".toList = .ok successTrueObj ∧
    parsePostReply "\x7b\"success\": true\x7d".toList = .ok successTrueObj ∧
    extractAndParseJSON "\x7boops\x7d \x7b\"success\": true\x7d".toList
        = .error .syntaxErr ∧
    parsePostReply "\x7boops\x7d \x7b\"success\": true\x7d".toList
        = .error .syntaxErr :=
  ⟨rfl, rfl, rfl, rfl⟩

/-- C5 (amended): extraction is invariant under prose wrapping for both
flows provided the prose is brace-free and backtick-free, the leading
prose starts with a non-whitespace character that cannot begin a JSON
value, the trailing prose ends with a non-whitespace character (or is
empty), and — because the plain-data flow uses the narrow match — the
object's only `}` is its final character.  Both extractors then return
on the wrapped text exactly the object they return on the clean text. -/
theorem c5_prose_wrapping :
    ∀ (c0 : Char) (pre1 mid post : List Char) (v : JVal),
      isJsonWs c0 = false → notValStarter c0 = true →
      btk ∉ c0 :: pre1 → '{' ∉ c0 :: pre1 →
      btk ∉ mid → '}' ∉ mid →
      btk ∉ post → '}' ∉ post →
      (∀ d, post.reverse.head? = some d → isJsonWs d = false) →
      jsonParse ('{' :: mid ++ ['}']) = some v →
      extractAndParseJSON ('{' :: mid ++ ['}']) = .ok v ∧
      parsePostReply ('{' :: mid ++ ['}']) = .ok v ∧
      extractAndParseJSON ((c0 :: pre1) ++ ('{' :: mid ++ ['}']) ++ post) = .ok v ∧
      parsePostReply ((c0 :: pre1) ++ ('{' :: mid ++ ['}']) ++ post) = .ok v := by
  intro c0 pre1 mid post v hc0ws hc0st hpreB hpreLB hmidB hmidRB hpostB hpostRB
    hpostEnd hv
  have hobjB : btk ∉ ('{' :: mid ++ ['}']) := by
    simp only [List.cons_append, List.mem_cons, List.mem_append, List.mem_singleton,
      not_or]
    exact ⟨by decide, hmidB, by decide⟩
  have hcleanObj : cleanText ('{' :: mid ++ ['}']) = '{' :: mid ++ ['}'] := by
    rw [cleanText_no_btk hobjB]
    apply jsTrim_id
    · intro c hc
      simp only [List.cons_append, List.head?_cons, Option.some.injEq] at hc
      subst hc; decide
    · intro c hc
      rw [show ('{' :: mid ++ ['}']).reverse = '}' :: (mid.reverse ++ ['{']) from by
        simp] at hc
      simp only [List.head?_cons, Option.some.injEq] at hc
      subst hc; decide
  have hwrapB : btk ∉ ((c0 :: pre1) ++ ('{' :: mid ++ ['}']) ++ post) := by
    intro hm
    rcases List.mem_append.mp hm with hm1 | hm2
    · rcases List.mem_append.mp hm1 with hm3 | hm4
      · exact hpreB hm3
      · exact hobjB hm4
    · exact hpostB hm2
  have hcleanW : cleanText ((c0 :: pre1) ++ ('{' :: mid ++ ['}']) ++ post)
      = (c0 :: pre1) ++ ('{' :: mid ++ ['}']) ++ post := by
    rw [cleanText_no_btk hwrapB]
    apply jsTrim_id
    · intro c hc
      rw [show (c0 :: pre1) ++ ('{' :: mid ++ ['}']) ++ post
          = c0 :: (pre1 ++ (('{' :: mid ++ ['}']) ++ post)) from by simp] at hc
      simp only [List.head?_cons, Option.some.injEq] at hc
      subst hc; exact hc0ws
    · intro c hc
      cases hpr : post.reverse with
      | nil =>
        have hpost0 : post = [] := by simpa using congrArg List.reverse hpr
        subst hpost0
        have hrv : ((c0 :: pre1) ++ ('{' :: mid ++ ['}']) ++ ([] : List Char)).reverse.head?
            = some '}' := by simp
        rw [hrv] at hc
        injection hc with h1
        rw [← h1]
        decide
      | cons d ds =>
        have hrv : ((c0 :: pre1) ++ ('{' :: mid ++ ['}']) ++ post).reverse.head?
            = some d := by
          rw [List.reverse_append, hpr]
          rfl
        rw [hrv] at hc
        injection hc with h1
        rw [← h1]
        exact hpostEnd d (by rw [hpr]; rfl)
  have hskW : skipWs ((c0 :: pre1) ++ ('{' :: mid ++ ['}']) ++ post)
      = c0 :: (pre1 ++ (('{' :: mid ++ ['}']) ++ post)) := by
    rw [show (c0 :: pre1) ++ ('{' :: mid ++ ['}']) ++ post
        = c0 :: (pre1 ++ (('{' :: mid ++ ['}']) ++ post)) from by simp]
    exact dropWhile_id_of_head fun c hc => by
      simp only [List.head?_cons, Option.some.injEq] at hc
      subst hc; exact hc0ws
  have hdirW : jsonParse ((c0 :: pre1) ++ ('{' :: mid ++ ['}']) ++ post) = none :=
    jsonParse_nonstarter hskW hc0st
  have harr : (c0 :: pre1) ++ ('{' :: mid ++ ['}']) ++ post
      = (c0 :: pre1) ++ '{' :: mid ++ '}' :: post := by simp
  have hm1 : jsMatch false ((c0 :: pre1) ++ ('{' :: mid ++ ['}']) ++ post)
      = some ('{' :: mid ++ ['}']) := by
    rw [harr]
    exact jsMatch_false_complete hpreLB hmidRB
  have hm2 : jsMatch true ((c0 :: pre1) ++ ('{' :: mid ++ ['}']) ++ post)
      = some ('{' :: mid ++ ['}']) := by
    rw [harr]
    exact jsMatch_true_complete hpreLB hpostRB
  refine ⟨?_, ?_, ?_, ?_⟩
  · simp only [extractAndParseJSON, hcleanObj, hv]
  · simp only [parsePostReply, hv]
  · simp only [extractAndParseJSON, hcleanW, hdirW, hm1, hv]
  · simp only [parsePostReply, hdirW, hm2, hv]

/-- C5 witness: the specified example — the object
`\x7b"success": true, "acceptabilityScore": 85\x7d` embedded in the
prose `Voici la réponse: ... avec du texte après` — extracts to exactly
that object in both flows, as does the clean object text. -/
theorem c5_prose_wrapping_witness :
    extractAndParseJSON ('{' :: "\"success\": true, \"acceptabilityScore\": 85".toList
        ++ ['}']) = .ok (JVal.jobj [("success".toList, .jbool true),
          ("acceptabilityScore".toList, .jnum 85)]) ∧
    extractAndParseJSON (('V' :: "oici la réponse: ".toList)
        ++ ('{' :: "\"success\": true, \"acceptabilityScore\": 85".toList ++ ['}'])
        ++ " avec du texte après".toList)
      = .ok (JVal.jobj [("success".toList, .jbool true),
          ("acceptabilityScore".toList, .jnum 85)]) ∧
    parsePostReply (('V' :: "oici la réponse: ".toList)
        ++ ('{' :: "\"success\": true, \"acceptabilityScore\": 85".toList ++ ['}'])
        ++ " avec du texte après".toList)
      = .ok (JVal.jobj [("success".toList, .jbool true),
          ("acceptabilityScore".toList, .jnum 85)]) := by
  have h := c5_prose_wrapping 'V' "oici la réponse: ".toList
    "\"success\": true, \"acceptabilityScore\": 85".toList
    " avec du texte après".toList
    (JVal.jobj [("success".toList, .jbool true),
      ("acceptabilityScore".toList, .jnum 85)])
    (by decide) (by decide) (by decide) (by decide) (by decide) (by decide)
    (by decide) (by decide)
    (fun d hd => by injection hd with h1; rw [← h1]; decide) rfl
  exact ⟨h.1, h.2.2.1, h.2.2.2⟩

/-- C2 counterexample: a submission with a file attached but a missing
`brand` is rejected by input validation before the `try`, so the
`finally` cleanup never runs — the temporary file is not deleted on
that exit path. -/
theorem c2_counterexample :
    (validatePostM (PostReq.mk none (some "Corolla".toList) (some "desc".toList)
        (.other (.jarr [])) (some ["/tmp/a.jpg".toList]))
      (PostEnv.mk (.ok []) (.ok "x".toList) (.ok (true, .jnull)))).resp.status = 400 ∧
    (PostReq.mk none (some "Corolla".toList) (some "desc".toList)
        (.other (.jarr [])) (some ["/tmp/a.jpg".toList])).files
      = some ["/tmp/a.jpg".toList] ∧
    (validatePostM (PostReq.mk none (some "Corolla".toList) (some "desc".toList)
        (.other (.jarr [])) (some ["/tmp/a.jpg".toList]))
      (PostEnv.mk (.ok []) (.ok "x".toList) (.ok (true, .jnull)))).deleted = [] :=
  ⟨rfl, rfl, rfl⟩

/-- C2 (amended): once input validation passes, `validatePost` attempts
the deletion of each submitted file exactly once on every exit path
(success, rejection, or thrown error); on the input-validation
rejection path no deletion is attempted.  `identifyCar` attempts the
deletion exactly once on every path on which a file was provided. -/
theorem c2_cleanup_exactly_once :
    (∀ (req : PostReq) (env : PostEnv), postValidationFails req = false →
      (validatePostM req env).deleted
        = (match req.files with | none => [] | some fs => fs)) ∧
    (∀ (req : PostReq) (env : PostEnv), postValidationFails req = true →
      (validatePostM req env).deleted = []) ∧
    (∀ (path : List Char) (env : DataEnv), path.isEmpty = false →
      (identifyCarM (some path) env).2 = [path]) ∧
    (∀ env : DataEnv, (identifyCarM none env).2 = []) := by
  refine ⟨fun req env hval => ?_, fun req env hval => ?_, fun path env hp => ?_,
    fun env => rfl⟩
  · simp only [validatePostM, hval, Bool.false_eq_true, if_false]
  · simp only [validatePostM, hval, if_true]
  · simp only [identifyCarM, hp, Bool.false_eq_true, if_false]

/-- C2 witness: both files of a successful submission are deleted
exactly once, and the single-image flow deletes its file even on an
unparseable reply. -/
theorem c2_cleanup_exactly_once_witness :
    (validatePostM (PostReq.mk (some "Toyota".toList) (some "Corolla".toList)
        (some "desc".toList) (.strv "a,b".toList)
        (some ["/tmp/u1.jpg".toList, "/tmp/u2.jpg".toList]))
      (PostEnv.mk (.ok ["u".toList]) (.ok "\x7b\"success\": true\x7d".toList)
        (.ok (true, .jnull)))).deleted
      = ["/tmp/u1.jpg".toList, "/tmp/u2.jpg".toList] ∧
    (identifyCarM (some "/tmp/car.jpg".toList) ⟨.ok "plain text".toList⟩).2
      = ["/tmp/car.jpg".toList] :=
  ⟨c2_cleanup_exactly_once.1 (PostReq.mk (some "Toyota".toList) (some "Corolla".toList)
      (some "desc".toList) (.strv "a,b".toList)
      (some ["/tmp/u1.jpg".toList, "/tmp/u2.jpg".toList]))
      (PostEnv.mk (.ok ["u".toList]) (.ok "\x7b\"success\": true\x7d".toList)
        (.ok (true, .jnull))) rfl,
    c2_cleanup_exactly_once.2.2.1 "/tmp/car.jpg".toList ⟨.ok "plain text".toList⟩ rfl⟩

/-- C7: when the extracted verdict has a falsy `success`, the
media-review handler answers 400 carrying the parsed payload itself,
while the plain-data handler answers 200 carrying a rejection flag. -/
theorem c7_negative_verdict_asymmetry :
    (∀ (req : PostReq) (env : PostEnv) (urls : List (List Char)) (reply : List Char)
        (parsed : JVal),
      postValidationFails req = false → env.upload = .ok urls → env.gpt = .ok reply →
      parsePostReply reply = .ok parsed → jgetTruthy parsed "success".toList = false →
      (validatePostM req env).resp = ⟨400, parsed⟩) ∧
    (∀ (body : JVal) (env : DataEnv) (reply : List Char) (parsed : JVal),
      jsTruthy body = true → env.gpt = .ok reply →
      extractAndParseJSON (jsTrim reply) = .ok parsed →
      jgetTruthy parsed "success".toList = false →
      (validateDataM (some body) env).resp = ⟨200, dataRejectedPayload⟩) := by
  constructor
  · intro req env urls reply parsed h0 h1 h2 h3 h4
    simp only [validatePostM, h0, Bool.false_eq_true, if_false, h1, h2, h3, h4,
      Bool.not_false, if_true]
  · intro body env reply parsed h0 h1 h2 h3
    simp only [validateDataM, h0, h1, h2, h3, Bool.not_true, Bool.not_false,
      Bool.false_eq_true, if_false, if_true]

/-- C7 witness: a `{"success": false}` verdict yields 400 with the
parsed object in the media flow and 200 with the rejection payload in
the plain-data flow. -/
theorem c7_negative_verdict_asymmetry_witness :
    (validatePostM (PostReq.mk (some "Toyota".toList) (some "Corolla".toList)
        (some "desc".toList) (.strv "[\"a\"]".toList) (some ["/tmp/u.jpg".toList]))
      (PostEnv.mk (.ok ["u".toList]) (.ok "\x7b\"success\": false\x7d".toList)
        (.ok (true, .jnull)))).resp = ⟨400, successFalseObj⟩ ∧
    (validateDataM (some (.jobj [("a".toList, .jstr "x".toList)]))
        ⟨.ok "\x7b\"success\": false\x7d".toList⟩).resp
      = ⟨200, dataRejectedPayload⟩ :=
  ⟨c7_negative_verdict_asymmetry.1 _ _ ["u".toList]
      "\x7b\"success\": false\x7d".toList successFalseObj rfl rfl rfl rfl rfl,
    c7_negative_verdict_asymmetry.2 _ _ "\x7b\"success\": false\x7d".toList
      successFalseObj rfl rfl rfl rfl⟩

/-- C8: for an accepted media submission, a failing persistence call
yields 500 with the payload reporting that validation succeeded but
persistence failed, carrying the relay's error detail; a successful
persistence call yields 201 with the persisted record in the payload. -/
theorem c8_persistence_outcomes :
    ∀ (req : PostReq) (env : PostEnv) (urls : List (List Char)) (reply : List Char)
      (parsed bdd : JVal),
      postValidationFails req = false → env.upload = .ok urls → env.gpt = .ok reply →
      parsePostReply reply = .ok parsed → jgetTruthy parsed "success".toList = true →
      (env.fetchR = .ok (false, bdd) →
        (validatePostM req env).resp = ⟨500, persistFailPayload bdd⟩) ∧
      (env.fetchR = .ok (true, bdd) →
        (validatePostM req env).resp = ⟨201, createdPayload parsed bdd⟩) := by
  intro req env urls reply parsed bdd h0 h1 h2 h3 h4
  constructor
  · intro h5
    simp only [validatePostM, h0, Bool.false_eq_true, if_false, h1, h2, h3, h4,
      Bool.not_true, h5, Bool.not_false, if_true]
  · intro h5
    simp only [validatePostM, h0, Bool.false_eq_true, if_false, h1, h2, h3, h4,
      Bool.not_true, h5, Bool.not_false, if_true, if_false]

/-- C8 witness: the two persistence outcomes at a concrete accepted
submission. -/
theorem c8_persistence_outcomes_witness :
    (validatePostM (PostReq.mk (some "Toyota".toList) (some "Corolla".toList)
        (some "desc".toList) (.strv "[\"a\"]".toList) (some ["/tmp/u.jpg".toList]))
      (PostEnv.mk (.ok ["u".toList]) (.ok "\x7b\"success\": true\x7d".toList)
        (.ok (false, .jstr "db error".toList)))).resp
      = ⟨500, persistFailPayload (.jstr "db error".toList)⟩ ∧
    (validatePostM (PostReq.mk (some "Toyota".toList) (some "Corolla".toList)
        (some "desc".toList) (.strv "[\"a\"]".toList) (some ["/tmp/u.jpg".toList]))
      (PostEnv.mk (.ok ["u".toList]) (.ok "\x7b\"success\": true\x7d".toList)
        (.ok (true, .jstr "record".toList)))).resp
      = ⟨201, createdPayload successTrueObj (.jstr "record".toList)⟩ :=
  ⟨(c8_persistence_outcomes
      (PostReq.mk (some "Toyota".toList) (some "Corolla".toList) (some "desc".toList)
        (.strv "[\"a\"]".toList) (some ["/tmp/u.jpg".toList]))
      (PostEnv.mk (.ok ["u".toList]) (.ok "\x7b\"success\": true\x7d".toList)
        (.ok (false, .jstr "db error".toList)))
      ["u".toList] "\x7b\"success\": true\x7d".toList
      successTrueObj (.jstr "db error".toList) rfl rfl rfl rfl rfl).1 rfl,
    (c8_persistence_outcomes
      (PostReq.mk (some "Toyota".toList) (some "Corolla".toList) (some "desc".toList)
        (.strv "[\"a\"]".toList) (some ["/tmp/u.jpg".toList]))
      (PostEnv.mk (.ok ["u".toList]) (.ok "\x7b\"success\": true\x7d".toList)
        (.ok (true, .jstr "record".toList)))
      ["u".toList] "\x7b\"success\": true\x7d".toList
      successTrueObj (.jstr "record".toList) rfl rfl rfl rfl rfl).2 rfl⟩

/-- C9: a submission missing any required field (brand, model,
description, tags) or with an absent or empty media list is answered
400 immediately, with no upload, completion, or persistence call and no
cleanup; a null body in the plain-data flow is answered 400 with no
completion call. -/
theorem c9_input_validation_short_circuits :
    (∀ (req : PostReq) (env : PostEnv),
      strTruthy req.brand = false ∨ strTruthy req.carModel = false ∨
        strTruthy req.description = false ∨ optTruthy (processTags req.tags) = false ∨
        req.files = none ∨ req.files = some [] →
      validatePostM req env = ⟨⟨400, vp400Payload⟩, [], []⟩) ∧
    (∀ env : DataEnv, validateDataM none env = ⟨⟨400, noDataPayload⟩, []⟩) := by
  constructor
  · intro req env h
    have hval : postValidationFails req = true := by
      rcases h with h | h | h | h | h | h <;> simp [postValidationFails, h]
    simp only [validatePostM, hval, if_true]
  · intro env
    rfl

/-- C9 witness: a missing brand with a file attached, and a null body,
are both rejected with no events. -/
theorem c9_input_validation_short_circuits_witness :
    validatePostM (PostReq.mk none (some "Corolla".toList) (some "desc".toList)
        (.other (.jarr [.jstr "a".toList])) (some ["/tmp/f.jpg".toList]))
      (PostEnv.mk (.ok []) (.ok "r".toList) (.ok (true, .jnull)))
      = ⟨⟨400, vp400Payload⟩, [], []⟩ ∧
    validateDataM none ⟨.ok "r".toList⟩ = ⟨⟨400, noDataPayload⟩, []⟩ :=
  ⟨c9_input_validation_short_circuits.1 _ _ (Or.inl rfl),
    c9_input_validation_short_circuits.2 _⟩

end SpotR
